import Mathlib

/-!
Shallow embedding of the mongoose-case-insensitive-field plugin
(src/development/index.js).  The plugin receives a schema and an
options record, derives a shadow path for every eligible field, and
registers hooks that keep the shadow synchronized on write and that
rewrite query conditions on read.
-/

namespace MCIF

/-- Runtime errors of the host language: a plain Error (thrown by the
plugin on a duplicate derived path) or a TypeError (raised when a
value that is not a string is asked for toLowerCase). -/
inductive JSError where
  | error (msg : String)
  | typeError (msg : String)
deriving DecidableEq, Repr

/-- The values a document field or a query condition can hold.  Among
these only strings have a toLowerCase method; obj stands for a nested
operator object such as a range or regex condition. -/
inductive JSVal where
  | str (s : String)
  | num (n : Int)
  | boolean (b : Bool)
  | null
  | obj (fields : List (String × String))
deriving DecidableEq, Repr

/-- String.prototype.toLowerCase, written with structural recursion
over the character list so that concrete inputs evaluate. -/
def jsToLower (s : String) : String := String.mk (s.data.map Char.toLower)

/-- String.prototype.trim: drop whitespace from both ends, written
with structural recursion over the character list. -/
def jsTrim (s : String) : String :=
  String.mk (((s.data.dropWhile Char.isWhitespace).reverse.dropWhile Char.isWhitespace).reverse)

/-- Split a character list at every occurrence of the separator; the
result always has one more piece than there are separators, matching
String.prototype.split with a one-character separator. -/
def splitOnCharAux (c : Char) : List Char → List (List Char)
  | [] => [[]]
  | x :: xs =>
      if x = c then [] :: splitOnCharAux c xs
      else
        match splitOnCharAux c xs with
        | [] => [[x]]
        | h :: t => (x :: h) :: t

/-- String.prototype.split with a one-character separator. -/
def jsSplit (c : Char) (s : String) : List String := (splitOnCharAux c s.data).map String.mk

/-- value.toLowerCase() on a possibly absent value: a string is
lowercased; undefined (absent) and every non-string value raise a
TypeError, exactly as in the host language. -/
def jsToLowerCaseOpt : Option JSVal → Except JSError JSVal
  | some (JSVal.str s) => Except.ok (JSVal.str (jsToLower s))
  | some _ => Except.error (JSError.typeError "value.toLowerCase is not a function")
  | none => Except.error (JSError.typeError "Cannot read property toLowerCase of undefined")

/-- How one hook invocation ends: the continuation is called with no
argument (next), the continuation is called with an error (nextErr),
or the hook body raises synchronously without ever calling the
continuation (thrown). -/
inductive HookOutcome where
  | next
  | nextErr (e : JSError)
  | thrown (e : JSError)
deriving DecidableEq, Repr

/-- True exactly when the outcome passed an error to the continuation. -/
def HookOutcome.isNextErr : HookOutcome → Bool
  | HookOutcome.nextErr _ => true
  | _ => false

/-- obj[k]: the first binding of k; none models undefined / absent. -/
def alGet {α : Type} : List (String × α) → String → Option α
  | [], _ => none
  | q :: rest, k => if q.1 = k then some q.2 else alGet rest k

/-- obj[k] = v: update the binding in place when the key exists,
append it otherwise (JS objects keep insertion order). -/
def alSet {α : Type} : List (String × α) → String → α → List (String × α)
  | [], k, v => [(k, v)]
  | q :: rest, k, v => if q.1 = k then (k, v) :: rest else q :: alSet rest k v

/-- Mutate the object stored at k in place, as schema.path(k) followed
by a setter call does. -/
def alModify {α : Type} : List (String × α) → String → (α → α) → List (String × α)
  | [], _, _ => []
  | q :: rest, k, f => if q.1 = k then (q.1, f q.2) :: rest else q :: alModify rest k f

/-- delete obj[k]. -/
def alErase {α : Type} : List (String × α) → String → List (String × α)
  | [], _ => []
  | q :: rest, k => if q.1 = k then alErase rest k else q :: alErase rest k

/-- The per-field option bag: the caseInsensitive extension flag plus
the remaining options, kept opaque. -/
structure FieldOptions where
  caseInsensitive : Bool
  rest : List (String × String)
deriving DecidableEq, Repr

/-- A field descriptor (a mongoose SchemaType): its path identity, its
type name, its option bag (none models a descriptor without options),
the lowercase-on-write flag set by .lowercase(true) and the
default-projection flag set by .select(b). -/
structure SchemaType where
  path : String
  instanceName : String
  options : Option FieldOptions
  lowercase : Bool
  selected : Option Bool
deriving DecidableEq, Repr

/-- Everything the tree mirror stores per path, kept opaque. -/
abbrev TreeEntry := String

/-- A registered hook body, identified by the pair of paths it closes
over; its behavior is given by runValidateHook and runFindHook below. -/
inductive Hook where
  | validateHook (key cip : String)
  | findHook (key cip : String)
deriving DecidableEq, Repr

/-- The mutable schema: the path map, its tree mirror, and the hook
registry in registration order (event name, hook body). -/
structure Schema where
  paths : List (String × SchemaType)
  tree : List (String × TreeEntry)
  hooks : List (String × Hook)
deriving DecidableEq, Repr

/-- options.paths may arrive as a comma separated string or a list. -/
inductive PathsOpt where
  | str (s : String)
  | list (l : List String)
deriving DecidableEq, Repr

/-- The merged options record.  pfx stands for the option the source
calls prefix, a reserved word here. -/
structure Options where
  pfx : String
  suffix : String
  select : Bool
  paths : PathsOpt
  usePathOption : Bool
deriving DecidableEq, Repr

/-- The defaults merged under the options supplied by the caller
(lines 72-78 of the source). -/
def defaultOptions : Options :=
  { pfx := "__", suffix := "", select := false,
    paths := PathsOpt.list [], usePathOption := true }

/-- Lines 81-85: a string-valued paths option is split on commas and
each token trimmed; the empty string is falsy in JS and is left
alone. -/
def normalizeOptions (o : Options) : Options :=
  match o.paths with
  | PathsOpt.str s =>
      if s = "" then o
      else { o with paths := PathsOpt.list ((jsSplit ',' s).map jsTrim) }
  | PathsOpt.list _ => o

/-- value.options && value.options.caseInsensitive with JS truthiness:
a missing option bag is falsy. -/
def jsOptionsCaseInsensitive : Option FieldOptions → Bool
  | some fo => fo.caseInsensitive
  | none => false

/-- options.paths && !!_.find(options.paths, p => p === key): find the
key and apply JS truthiness to the found string (the empty string is
falsy).  A string-valued paths option is iterated character by
character, as lodash does on array-likes. -/
def pathsContains (p : PathsOpt) (key : String) : Bool :=
  match p with
  | PathsOpt.str s =>
      match (s.data.map (fun c => String.mk [c])).find? (fun t => t == key) with
      | some t => !(t == "")
      | none => false
  | PathsOpt.list l =>
      match l.find? (fun t => t == key) with
      | some t => !(t == "")
      | none => false

/-- Lines 106-107: the eligibility test for one declared (key, value)
pair. -/
def isValidPath (o : Options) (key : String) (value : SchemaType) : Bool :=
  (o.usePathOption && jsOptionsCaseInsensitive value.options) || pathsContains o.paths key

/-- Lines 94-96: the derived path name. -/
def createCaseInsensitivePath (o : Options) (schemaPath : String) : String :=
  o.pfx ++ schemaPath ++ o.suffix

/-- Lines 98-103: deep-copy the descriptor and the tree entry from
fromPath to toPath, then restamp the copy's path identity.  Copying an
absent tree entry stores undefined, modeled as staying absent.  A
missing source descriptor would raise a TypeError on the path restamp
(never reached by the plugin, which only clones keys taken from the
schema's own path map). -/
def clonePath (sch : Schema) (fromPath toPath : String) : Schema × Option JSError :=
  match alGet sch.paths fromPath with
  | some st =>
      ({ sch with
          paths := alSet sch.paths toPath { st with path := toPath },
          tree :=
            match alGet sch.tree fromPath with
            | some t => alSet sch.tree toPath t
            | none => sch.tree },
        none)
  | none => (sch, some (JSError.typeError "Cannot set property path of undefined"))

/-- Line 117: the duplicate-path configuration error. -/
def dupPathError (key cip : String) : JSError :=
  JSError.error ("It is impossible to create a case-insensitive path \"" ++ key
    ++ "\". Path \"" ++ cip ++ "\" already used.")

/-- Lines 105-153, the loop body run for one declared (key, value)
pair: skip ineligible fields, raise on a duplicate derived path,
otherwise clone the field to the derived path, patch the clone
(lowercase on write, default projection from options.select) and
register the validate, find and findOne hooks.  Returns the schema as
mutated so far together with the error that aborted the body, if
any. -/
def processField (o : Options) (key : String) (value : SchemaType) (sch : Schema) :
    Schema × Option JSError :=
  if isValidPath o key value then
    let cip := createCaseInsensitivePath o key
    if (alGet sch.paths cip).isSome then
      (sch, some (dupPathError key cip))
    else
      match clonePath sch key cip with
      | (sch1, some e) => (sch1, some e)
      | (sch1, none) =>
          let sch2 := { sch1 with
            paths := alModify sch1.paths cip (fun st => { st with lowercase := true }) }
          let sch3 := { sch2 with
            paths := alModify sch2.paths cip (fun st => { st with selected := some o.select }) }
          let sch4 := { sch3 with
            hooks := sch3.hooks ++ [("validate", Hook.validateHook key cip)] }
          let sch5 := { sch4 with
            hooks := sch4.hooks
              ++ [("find", Hook.findHook key cip), ("findOne", Hook.findHook key cip)] }
          (sch5, none)
  else (sch, none)

/-- The forEach over the snapshot of declared paths; a raised error
stops the iteration, keeping the mutations made so far. -/
def installLoop (o : Options) (entries : List (String × SchemaType)) (sch : Schema) :
    Schema × Option JSError :=
  match entries with
  | [] => (sch, none)
  | (k, v) :: rest =>
      match processField o k v sch with
      | (sch1, none) => installLoop o rest sch1
      | (sch1, some e) => (sch1, some e)

/-- Lines 71-155: the plugin entry point.  lodash forEach snapshots
the key set up front, and the loop never reassigns an existing key (it
only appends fresh shadow paths), so iterating the initial (key,
value) pairs is equivalent to reading the values live. -/
def caseInsensitiveField (sch : Schema) (options : Options) : Schema × Option JSError :=
  let o := normalizeOptions options
  installLoop o sch.paths sch

/-- A document instance: path name to value; absent models undefined. -/
abbrev Document := List (String × JSVal)

/-- Lines 132-139, the pre-validate hook body registered for (key,
cip): this[cip] = this[key].toLowerCase() inside try/catch; a raised
TypeError is passed to the continuation, success calls the
continuation with no argument. -/
def runValidateHook (key cip : String) (doc : Document) : Document × HookOutcome :=
  match jsToLowerCaseOpt (alGet doc key) with
  | Except.ok lv => (alSet doc cip lv, HookOutcome.next)
  | Except.error e => (doc, HookOutcome.nextErr e)

/-- The condition set of an in-flight query. -/
abbrev Conditions := List (String × JSVal)

/-- Lines 144-152, the pre-find / pre-findOne hook body registered for
(key, cip): when a condition on key is present, store its lowercased
value under cip and delete the key entry; there is no try/catch here,
so a failing toLowerCase propagates as a synchronous throw. -/
def runFindHook (key cip : String) (conds : Conditions) : Conditions × HookOutcome :=
  match alGet conds key with
  | none => (conds, HookOutcome.next)
  | some v =>
      match jsToLowerCaseOpt (some v) with
      | Except.ok lv => (alErase (alSet conds cip lv) key, HookOutcome.next)
      | Except.error e => (conds, HookOutcome.thrown e)

/-- The schema the loop left behind, whether or not an error was
raised (JS mutates the schema in place). -/
def installResult (sch : Schema) (options : Options) : Schema :=
  (caseInsensitiveField sch options).1

/-- Fixture: a field that requests a shadow through its descriptor. -/
def emailType : SchemaType :=
  { path := "email", instanceName := "String",
    options := some { caseInsensitive := true, rest := [("required", "true")] },
    lowercase := false, selected := none }

/-- Fixture: a field with no options at all. -/
def usernameType : SchemaType :=
  { path := "username", instanceName := "String", options := none,
    lowercase := false, selected := none }

/-- Fixture: a two-field schema with an empty hook registry. -/
def exSchema : Schema :=
  { paths := [("email", emailType), ("username", usernameType)],
    tree := [("email", "String"), ("username", "String")],
    hooks := [] }

/-- The shadow descriptor the plugin derives for the email fixture. -/
def cloneEmailType : SchemaType :=
  { path := "__email", instanceName := "String",
    options := some { caseInsensitive := true, rest := [("required", "true")] },
    lowercase := true, selected := some false }

/-! ### Association-list lemmas -/

theorem alGet_alSet {α : Type} (l : List (String × α)) (k k' : String) (v : α) :
    alGet (alSet l k v) k' = if k = k' then some v else alGet l k' := by
  induction l with
  | nil => by_cases h : k = k' <;> simp [alSet, alGet, h]
  | cons q rest ih =>
    obtain ⟨a, b⟩ := q
    by_cases h : a = k
    · subst h
      by_cases h2 : a = k' <;> simp [alSet, alGet, h2]
    · by_cases h2 : a = k'
      · subst h2
        have hk : ¬ (k = a) := fun hh => h hh.symm
        simp [alSet, alGet, h, hk]
      · by_cases h3 : k = k'
        · subst h3
          simp [alSet, alGet, h, h2, ih]
        · simp [alSet, alGet, h, h2, h3, ih]

theorem alGet_alModify {α : Type} (l : List (String × α)) (k k' : String) (f : α → α) :
    alGet (alModify l k f) k' = if k = k' then (alGet l k).map f else alGet l k' := by
  induction l with
  | nil => by_cases h : k = k' <;> simp [alModify, alGet, h]
  | cons q rest ih =>
    obtain ⟨a, b⟩ := q
    by_cases h : a = k
    · subst h
      by_cases h2 : a = k' <;> simp [alModify, alGet, h2]
    · by_cases h2 : a = k'
      · subst h2
        have hk : ¬ (k = a) := fun hh => h hh.symm
        simp [alModify, alGet, h, hk]
      · by_cases h3 : k = k'
        · subst h3
          simp [alModify, alGet, h, h2, ih]
        · simp [alModify, alGet, h, h2, h3, ih]

theorem alGet_alErase {α : Type} (l : List (String × α)) (k k' : String) :
    alGet (alErase l k) k' = if k = k' then none else alGet l k' := by
  induction l with
  | nil => by_cases h : k = k' <;> simp [alErase, alGet, h]
  | cons q rest ih =>
    obtain ⟨a, b⟩ := q
    by_cases h : a = k
    · subst h
      by_cases h2 : a = k'
      · subst h2
        simp [alErase]
        simpa using ih
      · simp [alErase, alGet, h2, ih]
    · by_cases h2 : a = k'
      · subst h2
        have hk : ¬ (k = a) := fun hh => h hh.symm
        simp [alErase, alGet, h, hk]
      · by_cases h3 : k = k'
        · subst h3
          simp [alErase, alGet, h, h2, ih]
        · simp [alErase, alGet, h, h2, h3, ih]

/-! ### Option-normalization lemmas -/

theorem normalizeOptions_pfx (o : Options) : (normalizeOptions o).pfx = o.pfx := by
  cases h : o.paths with
  | str s => by_cases h2 : s = "" <;> simp [normalizeOptions, h, h2]
  | list l => simp [normalizeOptions, h]

theorem normalizeOptions_suffix (o : Options) : (normalizeOptions o).suffix = o.suffix := by
  cases h : o.paths with
  | str s => by_cases h2 : s = "" <;> simp [normalizeOptions, h, h2]
  | list l => simp [normalizeOptions, h]

theorem normalizeOptions_select (o : Options) : (normalizeOptions o).select = o.select := by
  cases h : o.paths with
  | str s => by_cases h2 : s = "" <;> simp [normalizeOptions, h, h2]
  | list l => simp [normalizeOptions, h]

theorem createCaseInsensitivePath_normalize (o : Options) (k : String) :
    createCaseInsensitivePath (normalizeOptions o) k = createCaseInsensitivePath o k := by
  simp [createCaseInsensitivePath, normalizeOptions_pfx, normalizeOptions_suffix]

theorem alGet_mem {α : Type} {l : List (String × α)} {k : String} {v : α}
    (h : alGet l k = some v) : (k, v) ∈ l := by
  induction l with
  | nil => simp [alGet] at h
  | cons q rest ih =>
    obtain ⟨a, b⟩ := q
    by_cases h2 : a = k
    · subst h2
      simp [alGet] at h
      simp [h]
    · simp [alGet, h2] at h
      exact List.mem_cons_of_mem _ (ih h)

/-! ### Per-field behavior of the installer -/

theorem processField_not_valid (o : Options) (key : String) (value : SchemaType)
    (sch : Schema) (h : isValidPath o key value = false) :
    processField o key value sch = (sch, none) := by
  simp [processField, h]

theorem processField_dup (o : Options) (key : String) (value : SchemaType)
    (sch : Schema) (h : isValidPath o key value = true)
    (h2 : (alGet sch.paths (createCaseInsensitivePath o key)).isSome = true) :
    processField o key value sch
      = (sch, some (dupPathError key (createCaseInsensitivePath o key))) := by
  simp [processField, h, h2]

theorem processField_clonefail (o : Options) (key : String) (value : SchemaType)
    (sch : Schema) (h : isValidPath o key value = true)
    (hcip : alGet sch.paths (createCaseInsensitivePath o key) = none)
    (hk : alGet sch.paths key = none) :
    processField o key value sch
      = (sch, some (JSError.typeError "Cannot set property path of undefined")) := by
  simp [processField, h, hcip, clonePath, hk]

theorem processField_success_spec (o : Options) (key : String) (value : SchemaType)
    (sch : Schema) (stk : SchemaType)
    (h : isValidPath o key value = true)
    (hcip : alGet sch.paths (createCaseInsensitivePath o key) = none)
    (hk : alGet sch.paths key = some stk) :
    ∃ sch1 : Schema,
      processField o key value sch = (sch1, none)
      ∧ alGet sch1.paths (createCaseInsensitivePath o key)
          = some { stk with path := createCaseInsensitivePath o key, lowercase := true,
                            selected := some o.select }
      ∧ (∀ p, p ≠ createCaseInsensitivePath o key → alGet sch1.paths p = alGet sch.paths p)
      ∧ (∀ p, p ≠ createCaseInsensitivePath o key → alGet sch1.tree p = alGet sch.tree p)
      ∧ sch1.hooks = sch.hooks
          ++ [("validate", Hook.validateHook key (createCaseInsensitivePath o key)),
              ("find", Hook.findHook key (createCaseInsensitivePath o key)),
              ("findOne", Hook.findHook key (createCaseInsensitivePath o key))] := by
  obtain ⟨p0, i0, op0, lc0, sel0⟩ := stk
  refine ⟨(processField o key value sch).1, ?_, ?_, ?_, ?_, ?_⟩
  · simp [processField, h, hcip, clonePath, hk]
  · simp [processField, h, hcip, clonePath, hk, alGet_alModify, alGet_alSet]
  · intro p hp
    have hp' : ¬ (createCaseInsensitivePath o key = p) := fun hh => hp hh.symm
    simp [processField, h, hcip, clonePath, hk, alGet_alModify, alGet_alSet, hp']
  · intro p hp
    have hp' : ¬ (createCaseInsensitivePath o key = p) := fun hh => hp hh.symm
    rcases htk : alGet sch.tree key with _ | t <;>
      simp [processField, h, hcip, clonePath, hk, htk, alGet_alSet, hp']
  · simp [processField, h, hcip, clonePath, hk]

theorem processField_preserve (o : Options) (key : String) (value : SchemaType)
    (sch : Schema) :
    ∀ p st, alGet sch.paths p = some st →
      alGet (processField o key value sch).1.paths p = some st
      ∧ alGet (processField o key value sch).1.tree p = alGet sch.tree p := by
  intro p st hp
  by_cases hval : isValidPath o key value = true
  · by_cases hdup : (alGet sch.paths (createCaseInsensitivePath o key)).isSome = true
    · rw [processField_dup o key value sch hval hdup]
      exact ⟨hp, rfl⟩
    · have hcip : alGet sch.paths (createCaseInsensitivePath o key) = none := by
        rcases hE : alGet sch.paths (createCaseInsensitivePath o key) with _ | w
        · rfl
        · rw [hE] at hdup
          simp at hdup
      rcases hk : alGet sch.paths key with _ | stk
      · rw [processField_clonefail o key value sch hval hcip hk]
        exact ⟨hp, rfl⟩
      · obtain ⟨sch1, heq, hc, hop, hot, hh⟩ :=
          processField_success_spec o key value sch stk hval hcip hk
        have hpne : p ≠ createCaseInsensitivePath o key := by
          intro hEq
          rw [hEq, hcip] at hp
          exact Option.noConfusion hp
        rw [heq]
        exact ⟨(hop p hpne).trans hp, hot p hpne⟩
  · have hval' : isValidPath o key value = false := by
      simpa using hval
    rw [processField_not_valid o key value sch hval']
    exact ⟨hp, rfl⟩

theorem processField_hooks_sub (o : Options) (key : String) (value : SchemaType)
    (sch : Schema) :
    ∀ h0, h0 ∈ sch.hooks → h0 ∈ (processField o key value sch).1.hooks := by
  intro h0 hmem
  by_cases hval : isValidPath o key value = true
  · by_cases hdup : (alGet sch.paths (createCaseInsensitivePath o key)).isSome = true
    · rw [processField_dup o key value sch hval hdup]
      exact hmem
    · have hcip : alGet sch.paths (createCaseInsensitivePath o key) = none := by
        rcases hE : alGet sch.paths (createCaseInsensitivePath o key) with _ | w
        · rfl
        · rw [hE] at hdup
          simp at hdup
      rcases hk : alGet sch.paths key with _ | stk
      · rw [processField_clonefail o key value sch hval hcip hk]
        exact hmem
      · obtain ⟨sch1, heq, _, _, _, hh⟩ :=
          processField_success_spec o key value sch stk hval hcip hk
        rw [heq]
        rw [hh]
        exact List.mem_append_left _ hmem
  · have hval' : isValidPath o key value = false := by
      simpa using hval
    rw [processField_not_valid o key value sch hval']
    exact hmem

/-! ### Behavior of the full installation loop -/

theorem installLoop_preserve (o : Options) :
    ∀ (entries : List (String × SchemaType)) (sch : Schema) (p : String) (st : SchemaType),
      alGet sch.paths p = some st →
      alGet (installLoop o entries sch).1.paths p = some st
      ∧ alGet (installLoop o entries sch).1.tree p = alGet sch.tree p := by
  intro entries
  induction entries with
  | nil =>
    intro sch p st hp
    exact ⟨hp, rfl⟩
  | cons e rest ih =>
    intro sch p st hp
    obtain ⟨k, v⟩ := e
    obtain ⟨h1, h2⟩ := processField_preserve o k v sch p st hp
    rcases hpf : processField o k v sch with ⟨sch1, err⟩
    rw [hpf] at h1 h2
    rcases err with _ | e0
    · have hstep : installLoop o ((k, v) :: rest) sch = installLoop o rest sch1 := by
        simp [installLoop, hpf]
      rw [hstep]
      obtain ⟨g1, g2⟩ := ih sch1 p st h1
      exact ⟨g1, g2.trans h2⟩
    · have hstep : installLoop o ((k, v) :: rest) sch = (sch1, some e0) := by
        simp [installLoop, hpf]
      rw [hstep]
      exact ⟨h1, h2⟩

theorem installLoop_hooks_sub (o : Options) :
    ∀ (entries : List (String × SchemaType)) (sch : Schema) (h0 : String × Hook),
      h0 ∈ sch.hooks → h0 ∈ (installLoop o entries sch).1.hooks := by
  intro entries
  induction entries with
  | nil =>
    intro sch h0 hmem
    exact hmem
  | cons e rest ih =>
    intro sch h0 hmem
    obtain ⟨k, v⟩ := e
    have h1 := processField_hooks_sub o k v sch h0 hmem
    rcases hpf : processField o k v sch with ⟨sch1, err⟩
    rw [hpf] at h1
    rcases err with _ | e0
    · have hstep : installLoop o ((k, v) :: rest) sch = installLoop o rest sch1 := by
        simp [installLoop, hpf]
      rw [hstep]
      exact ih sch1 h0 h1
    · have hstep : installLoop o ((k, v) :: rest) sch = (sch1, some e0) := by
        simp [installLoop, hpf]
      rw [hstep]
      exact h1

theorem installLoop_append (o : Options) :
    ∀ (a b : List (String × SchemaType)) (sch : Schema),
      installLoop o (a ++ b) sch =
        match installLoop o a sch with
        | (s1, none) => installLoop o b s1
        | (s1, some e) => (s1, some e) := by
  intro a
  induction a with
  | nil =>
    intro b sch
    simp [installLoop]
  | cons e rest ih =>
    intro b sch
    obtain ⟨k, v⟩ := e
    rcases hpf : processField o k v sch with ⟨sch1, err⟩
    rcases err with _ | e0
    · have h1 : installLoop o (((k, v) :: rest) ++ b) sch = installLoop o (rest ++ b) sch1 := by
        simp [installLoop, hpf]
      have h2 : installLoop o ((k, v) :: rest) sch = installLoop o rest sch1 := by
        simp [installLoop, hpf]
      rw [h1, h2, ih]
    · have h1 : installLoop o (((k, v) :: rest) ++ b) sch = (sch1, some e0) := by
        simp [installLoop, hpf]
      have h2 : installLoop o ((k, v) :: rest) sch = (sch1, some e0) := by
        simp [installLoop, hpf]
      rw [h1, h2]

theorem installLoop_eligible (o : Options) :
    ∀ (entries : List (String × SchemaType)) (sch : Schema) (key : String) (st : SchemaType),
      (installLoop o entries sch).2 = none →
      (key, st) ∈ entries →
      alGet sch.paths key = some st →
      isValidPath o key st = true →
      createCaseInsensitivePath o key ≠ key
      ∧ alGet (installLoop o entries sch).1.paths (createCaseInsensitivePath o key)
          = some { st with path := createCaseInsensitivePath o key, lowercase := true,
                           selected := some o.select }
      ∧ ("validate", Hook.validateHook key (createCaseInsensitivePath o key))
          ∈ (installLoop o entries sch).1.hooks
      ∧ ("find", Hook.findHook key (createCaseInsensitivePath o key))
          ∈ (installLoop o entries sch).1.hooks
      ∧ ("findOne", Hook.findHook key (createCaseInsensitivePath o key))
          ∈ (installLoop o entries sch).1.hooks := by
  intro entries
  induction entries with
  | nil =>
    intro sch key st _ hmem
    simp at hmem
  | cons e rest ih =>
    intro sch key st hok hmem hkey helig
    obtain ⟨k, v⟩ := e
    rcases hpf : processField o k v sch with ⟨sch1, err⟩
    rcases err with _ | e0
    · have hstep : installLoop o ((k, v) :: rest) sch = installLoop o rest sch1 := by
        simp [installLoop, hpf]
      rw [hstep] at hok ⊢
      rcases List.mem_cons.mp hmem with hhd | htl
      · injection hhd with hk1 hk2
        subst hk1
        subst hk2
        by_cases hdup : (alGet sch.paths (createCaseInsensitivePath o key)).isSome = true
        · rw [processField_dup o key st sch helig hdup] at hpf
          simp at hpf
        · have hcip : alGet sch.paths (createCaseInsensitivePath o key) = none := by
            rcases hE : alGet sch.paths (createCaseInsensitivePath o key) with _ | w
            · rfl
            · rw [hE] at hdup
              simp at hdup
          obtain ⟨sch1', heq, hc, hop, hot, hh⟩ :=
            processField_success_spec o key st sch st helig hcip hkey
          rw [hpf] at heq
          injection heq with heq1 _
          subst heq1
          have hne : createCaseInsensitivePath o key ≠ key := by
            intro hEq
            rw [hEq, hkey] at hcip
            exact Option.noConfusion hcip
          refine ⟨hne, ?_, ?_, ?_, ?_⟩
          · exact (installLoop_preserve o rest sch1 _ _ hc).1
          · refine installLoop_hooks_sub o rest sch1 _ ?_
            rw [hh]
            simp
          · refine installLoop_hooks_sub o rest sch1 _ ?_
            rw [hh]
            simp
          · refine installLoop_hooks_sub o rest sch1 _ ?_
            rw [hh]
            simp
      · obtain ⟨hkey1, _⟩ := processField_preserve o k v sch key st hkey
        rw [hpf] at hkey1
        exact ih sch1 key st hok htl hkey1 helig
    · have hstep : installLoop o ((k, v) :: rest) sch = (sch1, some e0) := by
        simp [installLoop, hpf]
      rw [hstep] at hok
      simp at hok

/-! ### Claim theorems -/

/-- Claim C1: for every eligible field key, after a successful
installation the schema's path mapping contains the derived path
prefix + key + suffix, whose descriptor is a deep copy of the
descriptor of key except that its lowercase-on-write flag is true, its
default-projection flag equals options.select, and its path identity
equals the derived path rather than the original's. -/
theorem claim1_shadow_descriptor (sch : Schema) (options : Options) (sch2 : Schema)
    (key : String) (st : SchemaType)
    (hok : caseInsensitiveField sch options = (sch2, none))
    (hkey : alGet sch.paths key = some st)
    (helig : isValidPath (normalizeOptions options) key st = true) :
    alGet sch2.paths (createCaseInsensitivePath options key)
      = some { st with path := createCaseInsensitivePath options key, lowercase := true,
                       selected := some options.select } := by
  have hok' : installLoop (normalizeOptions options) sch.paths sch = (sch2, none) := hok
  have h := installLoop_eligible (normalizeOptions options) sch.paths sch key st
    (by rw [hok']) (alGet_mem hkey) hkey helig
  have h2 := h.2.1
  rw [hok'] at h2
  rw [createCaseInsensitivePath_normalize, normalizeOptions_select] at h2
  exact h2

/-- Witness for claim C1 at the email fixture with the default
options: the shadow __email exists with the patched clone. -/
theorem claim1_witness :
    caseInsensitiveField exSchema defaultOptions = (installResult exSchema defaultOptions, none)
    ∧ alGet (installResult exSchema defaultOptions).paths "__email" = some cloneEmailType := by
  constructor
  · rfl
  · exact claim1_shadow_descriptor exSchema defaultOptions
      (installResult exSchema defaultOptions) "email" emailType rfl rfl rfl

/-- Claim C2: a declared field gets a shadow together with its hooks
exactly when (usePathOption and a truthy caseInsensitive option) or
membership in the normalized paths list holds; a field with neither is
left entirely untouched (the loop body returns the schema unchanged,
with no new path, no hooks and no descriptor changes). -/
theorem claim2_eligibility (o : Options) (key : String) (value : SchemaType) (sch : Schema) :
    (processField o key value sch = (sch, none)
      ↔ ((o.usePathOption && jsOptionsCaseInsensitive value.options)
          || pathsContains o.paths key) = false)
    ∧ (((o.usePathOption && jsOptionsCaseInsensitive value.options)
          || pathsContains o.paths key) = true →
        (processField o key value sch).2.isSome = true
        ∨ ((alGet (processField o key value sch).1.paths
              (createCaseInsensitivePath o key)).isSome = true
           ∧ (processField o key value sch).1.hooks
               = sch.hooks
                 ++ [("validate", Hook.validateHook key (createCaseInsensitivePath o key)),
                     ("find", Hook.findHook key (createCaseInsensitivePath o key)),
                     ("findOne", Hook.findHook key (createCaseInsensitivePath o key))])) := by
  have hvid : isValidPath o key value
      = ((o.usePathOption && jsOptionsCaseInsensitive value.options)
          || pathsContains o.paths key) := rfl
  constructor
  · constructor
    · intro heq
      cases hval : isValidPath o key value with
      | false =>
        rw [← hvid]
        exact hval
      | true =>
        exfalso
        by_cases hdup : (alGet sch.paths (createCaseInsensitivePath o key)).isSome = true
        · rw [processField_dup o key value sch hval hdup] at heq
          simp at heq
        · have hcip : alGet sch.paths (createCaseInsensitivePath o key) = none := by
            rcases hE : alGet sch.paths (createCaseInsensitivePath o key) with _ | w
            · rfl
            · rw [hE] at hdup
              simp at hdup
          rcases hk : alGet sch.paths key with _ | stk
          · rw [processField_clonefail o key value sch hval hcip hk] at heq
            simp at heq
          · obtain ⟨sch1, heq1, _, _, _, hh⟩ :=
              processField_success_spec o key value sch stk hval hcip hk
            rw [heq1] at heq
            injection heq with hs _
            rw [hs] at hh
            have hlen := congrArg List.length hh
            simp only [List.length_append, List.length_cons, List.length_nil] at hlen
            omega
    · intro hfalse
      have hval : isValidPath o key value = false := by
        rw [hvid]
        exact hfalse
      exact processField_not_valid o key value sch hval
  · intro htrue
    have hval : isValidPath o key value = true := by
      rw [hvid]
      exact htrue
    by_cases hdup : (alGet sch.paths (createCaseInsensitivePath o key)).isSome = true
    · left
      rw [processField_dup o key value sch hval hdup]
      rfl
    · have hcip : alGet sch.paths (createCaseInsensitivePath o key) = none := by
        rcases hE : alGet sch.paths (createCaseInsensitivePath o key) with _ | w
        · rfl
        · rw [hE] at hdup
          simp at hdup
      rcases hk : alGet sch.paths key with _ | stk
      · left
        rw [processField_clonefail o key value sch hval hcip hk]
        rfl
      · obtain ⟨sch1, heq1, hc, _, _, hh⟩ :=
          processField_success_spec o key value sch stk hval hcip hk
        right
        rw [heq1]
        constructor
        · rw [hc]
          rfl
        · exact hh

/-- Witness for claim C2: the username fixture (no caseInsensitive
option, not in the default empty paths list) is left untouched, and
the email fixture is eligible, so its body errors or installs the
shadow and the three hooks. -/
theorem claim2_witness :
    processField defaultOptions "username" usernameType exSchema = (exSchema, none)
    ∧ ((processField defaultOptions "email" emailType exSchema).2.isSome = true
       ∨ ((alGet (processField defaultOptions "email" emailType exSchema).1.paths
             (createCaseInsensitivePath defaultOptions "email")).isSome = true
          ∧ (processField defaultOptions "email" emailType exSchema).1.hooks
              = exSchema.hooks
                ++ [("validate",
                      Hook.validateHook "email" (createCaseInsensitivePath defaultOptions "email")),
                    ("find",
                      Hook.findHook "email" (createCaseInsensitivePath defaultOptions "email")),
                    ("findOne",
                      Hook.findHook "email" (createCaseInsensitivePath defaultOptions "email"))])) := by
  constructor
  · exact (claim2_eligibility defaultOptions "username" usernameType exSchema).1.mpr rfl
  · exact (claim2_eligibility defaultOptions "email" emailType exSchema).2 rfl

/-- Claim C3: for every eligible field key of a successful
installation, the registered before-validate hook maps a document
whose value at key is the string s to a document whose value at the
derived path is the lowercase form of s, while the value at key itself
is unchanged, and it calls the continuation with no error. -/
theorem claim3_write_hook (sch : Schema) (options : Options) (sch2 : Schema)
    (key : String) (st : SchemaType) (doc : Document) (s : String)
    (hok : caseInsensitiveField sch options = (sch2, none))
    (hkey : alGet sch.paths key = some st)
    (helig : isValidPath (normalizeOptions options) key st = true)
    (hdoc : alGet doc key = some (JSVal.str s)) :
    ("validate", Hook.validateHook key (createCaseInsensitivePath options key)) ∈ sch2.hooks
    ∧ runValidateHook key (createCaseInsensitivePath options key) doc
        = (alSet doc (createCaseInsensitivePath options key) (JSVal.str (jsToLower s)),
           HookOutcome.next)
    ∧ alGet (runValidateHook key (createCaseInsensitivePath options key) doc).1
        (createCaseInsensitivePath options key) = some (JSVal.str (jsToLower s))
    ∧ alGet (runValidateHook key (createCaseInsensitivePath options key) doc).1 key
        = some (JSVal.str s) := by
  have hok' : installLoop (normalizeOptions options) sch.paths sch = (sch2, none) := hok
  have h := installLoop_eligible (normalizeOptions options) sch.paths sch key st
    (by rw [hok']) (alGet_mem hkey) hkey helig
  have hne : createCaseInsensitivePath options key ≠ key := by
    rw [← createCaseInsensitivePath_normalize]
    exact h.1
  have hmem := h.2.2.1
  rw [hok', createCaseInsensitivePath_normalize] at hmem
  have heq : runValidateHook key (createCaseInsensitivePath options key) doc
      = (alSet doc (createCaseInsensitivePath options key) (JSVal.str (jsToLower s)),
         HookOutcome.next) := by
    simp [runValidateHook, hdoc, jsToLowerCaseOpt]
  refine ⟨hmem, heq, ?_, ?_⟩
  · rw [heq]
    simp [alGet_alSet]
  · rw [heq]
    simp only [alGet_alSet]
    rw [if_neg hne]
    exact hdoc

/-- Witness for claim C3 at the email fixture: a document with
email = "FooBar" gains __email = "foobar" while email stays
"FooBar". -/
theorem claim3_witness :
    ("validate", Hook.validateHook "email" "__email")
        ∈ (installResult exSchema defaultOptions).hooks
    ∧ runValidateHook "email" "__email" [("email", JSVal.str "FooBar")]
        = ([("email", JSVal.str "FooBar"), ("__email", JSVal.str "foobar")], HookOutcome.next)
    ∧ alGet (runValidateHook "email" "__email" [("email", JSVal.str "FooBar")]).1 "email"
        = some (JSVal.str "FooBar") := by
  refine ⟨?_, ?_, ?_⟩
  · exact (claim3_write_hook exSchema defaultOptions (installResult exSchema defaultOptions)
      "email" emailType [("email", JSVal.str "FooBar")] "FooBar" rfl rfl rfl rfl).1
  · exact (claim3_write_hook exSchema defaultOptions (installResult exSchema defaultOptions)
      "email" emailType [("email", JSVal.str "FooBar")] "FooBar" rfl rfl rfl rfl).2.1
  · exact (claim3_write_hook exSchema defaultOptions (installResult exSchema defaultOptions)
      "email" emailType [("email", JSVal.str "FooBar")] "FooBar" rfl rfl rfl rfl).2.2.2

/-- Claim C4: for every eligible field key of a successful
installation, hooks are registered for find and findOne, and the hook
body rewrites the condition set before execution: a string condition
on key is moved to the derived path in lowercase form with the key
entry removed, and a condition set with no entry for key is left
unchanged. -/
theorem claim4_find_hooks (sch : Schema) (options : Options) (sch2 : Schema)
    (key : String) (st : SchemaType)
    (hok : caseInsensitiveField sch options = (sch2, none))
    (hkey : alGet sch.paths key = some st)
    (helig : isValidPath (normalizeOptions options) key st = true) :
    ("find", Hook.findHook key (createCaseInsensitivePath options key)) ∈ sch2.hooks
    ∧ ("findOne", Hook.findHook key (createCaseInsensitivePath options key)) ∈ sch2.hooks
    ∧ (∀ (conds : Conditions) (v : String), alGet conds key = some (JSVal.str v) →
        runFindHook key (createCaseInsensitivePath options key) conds
          = (alErase (alSet conds (createCaseInsensitivePath options key)
                (JSVal.str (jsToLower v))) key,
             HookOutcome.next)
        ∧ alGet (runFindHook key (createCaseInsensitivePath options key) conds).1
            (createCaseInsensitivePath options key) = some (JSVal.str (jsToLower v))
        ∧ alGet (runFindHook key (createCaseInsensitivePath options key) conds).1 key = none)
    ∧ (∀ conds : Conditions, alGet conds key = none →
        runFindHook key (createCaseInsensitivePath options key) conds
          = (conds, HookOutcome.next)) := by
  have hok' : installLoop (normalizeOptions options) sch.paths sch = (sch2, none) := hok
  have h := installLoop_eligible (normalizeOptions options) sch.paths sch key st
    (by rw [hok']) (alGet_mem hkey) hkey helig
  have hne : createCaseInsensitivePath options key ≠ key := by
    rw [← createCaseInsensitivePath_normalize]
    exact h.1
  have hmemf := h.2.2.2.1
  rw [hok', createCaseInsensitivePath_normalize] at hmemf
  have hmemfo := h.2.2.2.2
  rw [hok', createCaseInsensitivePath_normalize] at hmemfo
  refine ⟨hmemf, hmemfo, ?_, ?_⟩
  · intro conds v hv
    have heq : runFindHook key (createCaseInsensitivePath options key) conds
        = (alErase (alSet conds (createCaseInsensitivePath options key)
              (JSVal.str (jsToLower v))) key,
           HookOutcome.next) := by
      simp [runFindHook, hv, jsToLowerCaseOpt]
    refine ⟨heq, ?_, ?_⟩
    · rw [heq]
      simp only [alGet_alErase]
      rw [if_neg (fun hh => hne hh.symm)]
      simp [alGet_alSet]
    · rw [heq]
      simp [alGet_alErase]
  · intro conds hv
    simp [runFindHook, hv]

/-- Witness for claim C4 at the email fixture: the condition set
email = "FooBar" is rewritten to __email = "foobar" with the email
entry removed, and a condition set without email is unchanged. -/
theorem claim4_witness :
    ("find", Hook.findHook "email" "__email") ∈ (installResult exSchema defaultOptions).hooks
    ∧ runFindHook "email" "__email" [("email", JSVal.str "FooBar")]
        = ([("__email", JSVal.str "foobar")], HookOutcome.next)
    ∧ runFindHook "email" "__email" [("age", JSVal.num 3)]
        = ([("age", JSVal.num 3)], HookOutcome.next) := by
  refine ⟨?_, ?_, ?_⟩
  · exact (claim4_find_hooks exSchema defaultOptions (installResult exSchema defaultOptions)
      "email" emailType rfl rfl rfl).1
  · exact ((claim4_find_hooks exSchema defaultOptions (installResult exSchema defaultOptions)
      "email" emailType rfl rfl rfl).2.2.1 [("email", JSVal.str "FooBar")] "FooBar" rfl).1
  · exact (claim4_find_hooks exSchema defaultOptions (installResult exSchema defaultOptions)
      "email" emailType rfl rfl rfl).2.2.2 [("age", JSVal.num 3)] rfl

/-- Claim C10: installation never modifies the original field's own
descriptor or tree entry; after the call the descriptor and the tree
entry stored under an eligible key are identical to what they were
before. -/
theorem claim10_source_untouched (sch : Schema) (options : Options) (sch2 : Schema)
    (key : String) (st : SchemaType)
    (hok : caseInsensitiveField sch options = (sch2, none))
    (hkey : alGet sch.paths key = some st)
    (helig : isValidPath (normalizeOptions options) key st = true) :
    alGet sch2.paths key = some st ∧ alGet sch2.tree key = alGet sch.tree key := by
  have hok' : installLoop (normalizeOptions options) sch.paths sch = (sch2, none) := hok
  have h := installLoop_preserve (normalizeOptions options) sch.paths sch key st hkey
  rw [hok'] at h
  exact h

/-- Witness for claim C10 at the email fixture: email keeps its
original descriptor and tree entry after installation. -/
theorem claim10_witness :
    alGet (installResult exSchema defaultOptions).paths "email" = some emailType
    ∧ alGet (installResult exSchema defaultOptions).tree "email" = alGet exSchema.tree "email" :=
  claim10_source_untouched exSchema defaultOptions (installResult exSchema defaultOptions)
    "email" emailType rfl rfl rfl

/-- Claim C5: when the derived path of an eligible field already
exists in the schema's path mapping at the moment that field is
processed (declared originally, created for an earlier field of the
same call, or left by a previous install), installation raises the
duplicate-path error synchronously, installs no clone or hooks for
that field, processes no further fields, and keeps exactly the
mutations made for fields processed earlier in iteration order. -/
theorem claim5_duplicate_path_aborts (sch : Schema) (options : Options)
    (pre post : List (String × SchemaType)) (key : String) (st : SchemaType) (schMid : Schema)
    (hsplit : sch.paths = pre ++ (key, st) :: post)
    (hpre : installLoop (normalizeOptions options) pre sch = (schMid, none))
    (helig : isValidPath (normalizeOptions options) key st = true)
    (hdup : (alGet schMid.paths (createCaseInsensitivePath options key)).isSome = true) :
    caseInsensitiveField sch options
      = (schMid, some (dupPathError key (createCaseInsensitivePath options key))) := by
  have h0 : caseInsensitiveField sch options
      = installLoop (normalizeOptions options) sch.paths sch := rfl
  have hdup' : (alGet schMid.paths
      (createCaseInsensitivePath (normalizeOptions options) key)).isSome = true := by
    rw [createCaseInsensitivePath_normalize]
    exact hdup
  have hpf := processField_dup (normalizeOptions options) key st schMid helig hdup'
  rw [h0, hsplit, installLoop_append, hpre]
  simp [installLoop, hpf, createCaseInsensitivePath_normalize]

/-- Witness for claim C5: installing the default options twice over
the email fixture raises the duplicate-path error on the second call
and leaves the schema exactly as the first call left it. -/
theorem claim5_witness :
    caseInsensitiveField (installResult exSchema defaultOptions) defaultOptions
      = (installResult exSchema defaultOptions, some (dupPathError "email" "__email")) :=
  claim5_duplicate_path_aborts (installResult exSchema defaultOptions) defaultOptions
    [] [("username", usernameType), ("__email", cloneEmailType)] "email" emailType
    (installResult exSchema defaultOptions) rfl rfl rfl rfl

/-- Claim C6: the read-time hooks rewrite only an exact-key equality
lookup; on a nested operator object (a range or regex condition
rather than a plain string) the condition set is left unmodified (the
toLowerCase call raises before any entry is written, so the hook
performs no rewrite). -/
theorem claim6_operator_condition_unmodified (key cip : String) (conds : Conditions)
    (fields : List (String × String))
    (h : alGet conds key = some (JSVal.obj fields)) :
    runFindHook key cip conds
      = (conds,
         HookOutcome.thrown (JSError.typeError "value.toLowerCase is not a function")) := by
  simp [runFindHook, h, jsToLowerCaseOpt]

/-- Witness for claim C6: a range condition on age is not rewritten
by the find hook. -/
theorem claim6_witness :
    runFindHook "age" "__age" [("age", JSVal.obj [("$gt", "18")])]
      = ([("age", JSVal.obj [("$gt", "18")])],
         HookOutcome.thrown (JSError.typeError "value.toLowerCase is not a function")) :=
  claim6_operator_condition_unmodified "age" "__age" [("age", JSVal.obj [("$gt", "18")])]
    [("$gt", "18")] rfl

/-- Counterexample to claim C7: with a non-string condition value the
find hook does not pass the failure to its continuation; the hook body
has no try/catch, so the TypeError escapes as a synchronous throw. -/
theorem claim7_counterexample :
    runFindHook "username" "__username" [("username", JSVal.num 5)]
      = ([("username", JSVal.num 5)],
         HookOutcome.thrown (JSError.typeError "value.toLowerCase is not a function"))
    ∧ HookOutcome.isNextErr
        (runFindHook "username" "__username" [("username", JSVal.num 5)]).2 = false := by
  constructor
  · rfl
  · rfl

/-- Claim C7 as amended: when a find or findOne hook encounters a
condition value for key that cannot be lowercased, the failure
escapes the hook as a synchronous throw (the error continuation is
never called), leaving the condition set unmodified. -/
theorem claim7_sync_throw (key cip : String) (conds : Conditions) (v : JSVal)
    (e : JSError) (hv : alGet conds key = some v)
    (he : jsToLowerCaseOpt (some v) = Except.error e) :
    runFindHook key cip conds = (conds, HookOutcome.thrown e) := by
  simp [runFindHook, hv, he]

/-- Witness for the amended claim C7 at a null condition value. -/
theorem claim7_witness :
    runFindHook "email" "__email" [("email", JSVal.null)]
      = ([("email", JSVal.null)],
         HookOutcome.thrown (JSError.typeError "value.toLowerCase is not a function")) :=
  claim7_sync_throw "email" "__email" [("email", JSVal.null)] JSVal.null
    (JSError.typeError "value.toLowerCase is not a function") rfl rfl

/-- Claim C8: when the before-validate hook's lowercasing assignment
raises (the source value is absent or not a string), the hook catches
the failure and passes the error to its continuation, leaving the
document unchanged and never throwing synchronously; on success it
calls the continuation with no error. -/
theorem claim8_validate_error_channel (key cip : String) (doc : Document) :
    (∀ v e, alGet doc key = some v → jsToLowerCaseOpt (some v) = Except.error e →
        runValidateHook key cip doc = (doc, HookOutcome.nextErr e))
    ∧ (alGet doc key = none →
        runValidateHook key cip doc
          = (doc, HookOutcome.nextErr
              (JSError.typeError "Cannot read property toLowerCase of undefined")))
    ∧ (∀ s, alGet doc key = some (JSVal.str s) →
        runValidateHook key cip doc
          = (alSet doc cip (JSVal.str (jsToLower s)), HookOutcome.next)) := by
  refine ⟨?_, ?_, ?_⟩
  · intro v e hv he
    simp [runValidateHook, hv, he]
  · intro hv
    simp [runValidateHook, hv, jsToLowerCaseOpt]
  · intro s hv
    simp [runValidateHook, hv, jsToLowerCaseOpt]

/-- Witness for claim C8: an absent source value and a numeric source
value are routed to the continuation as errors with the document
unchanged, and a string source value succeeds. -/
theorem claim8_witness :
    runValidateHook "email" "__email" [("other", JSVal.str "X")]
      = ([("other", JSVal.str "X")],
         HookOutcome.nextErr
           (JSError.typeError "Cannot read property toLowerCase of undefined"))
    ∧ runValidateHook "email" "__email" [("email", JSVal.num 7)]
      = ([("email", JSVal.num 7)],
         HookOutcome.nextErr (JSError.typeError "value.toLowerCase is not a function"))
    ∧ runValidateHook "email" "__email" [("email", JSVal.str "FooBar")]
      = ([("email", JSVal.str "FooBar"), ("__email", JSVal.str "foobar")],
         HookOutcome.next) := by
  refine ⟨?_, ?_, ?_⟩
  · exact (claim8_validate_error_channel "email" "__email" [("other", JSVal.str "X")]).2.1 rfl
  · exact (claim8_validate_error_channel "email" "__email" [("email", JSVal.num 7)]).1
      (JSVal.num 7) (JSError.typeError "value.toLowerCase is not a function") rfl rfl
  · exact (claim8_validate_error_channel "email" "__email" [("email", JSVal.str "FooBar")]).2.2
      "FooBar" rfl

/-- Claim C9: an options.paths value supplied as a comma-separated
string is split on commas with each token trimmed, and installation
behaves exactly as if the corresponding list had been supplied
directly.  (The hypothesis excludes the empty string, which is falsy
in JS and is not split at all.) -/
theorem claim9_string_paths (sch : Schema) (o : Options) (s : String) (hs : s ≠ "") :
    caseInsensitiveField sch { o with paths := PathsOpt.str s }
      = caseInsensitiveField sch
          { o with paths := PathsOpt.list ((jsSplit ',' s).map jsTrim) } := by
  have h1 : normalizeOptions { o with paths := PathsOpt.str s }
      = { o with paths := PathsOpt.list ((jsSplit ',' s).map jsTrim) } := by
    simp [normalizeOptions, hs]
  have h2 : normalizeOptions { o with paths := PathsOpt.list ((jsSplit ',' s).map jsTrim) }
      = { o with paths := PathsOpt.list ((jsSplit ',' s).map jsTrim) } := by
    simp [normalizeOptions]
  have e1 : caseInsensitiveField sch { o with paths := PathsOpt.str s }
      = installLoop (normalizeOptions { o with paths := PathsOpt.str s }) sch.paths sch := rfl
  have e2 : caseInsensitiveField sch
        { o with paths := PathsOpt.list ((jsSplit ',' s).map jsTrim) }
      = installLoop
          (normalizeOptions { o with paths := PathsOpt.list ((jsSplit ',' s).map jsTrim) })
          sch.paths sch := rfl
  rw [e1, e2, h1, h2]

/-- Witness for claim C9: "a, b ,c" normalizes to the list
["a", "b", "c"] and installs identically to it. -/
theorem claim9_witness :
    ((jsSplit ',' "a, b ,c").map jsTrim = ["a", "b", "c"])
    ∧ caseInsensitiveField exSchema { defaultOptions with paths := PathsOpt.str "a, b ,c" }
        = caseInsensitiveField exSchema
            { defaultOptions with
              paths := PathsOpt.list ((jsSplit ',' "a, b ,c").map jsTrim) } := by
  constructor
  · rfl
  · exact claim9_string_paths exSchema defaultOptions "a, b ,c" (by decide)

end MCIF
